import Mathlib

/-!
Shallow embedding of the decision core of the btc_bot repository
(indicator scoring, market selection, paper-trade execution and settlement),
with the spec's testable properties settled as theorems.

Numeric model: Python floats are modelled as rationals (ℚ); the claims under
study are about branch structure and exact arithmetic identities, not about
floating-point rounding.
-/

namespace BtcBot

/-- Trading direction prediction (src/btc_bot/analysis/scoring.py, class Direction). -/
inductive Direction where
  | UP
  | DOWN
  | NEUTRAL
deriving DecidableEq

/-- The slice of IndicatorConfig used by the scorer
(src/btc_bot/config/settings.py: rsi_oversold default 30.0, rsi_overbought default 70.0). -/
structure IndicatorConfig where
  rsi_oversold : ℚ
  rsi_overbought : ℚ
deriving DecidableEq

/-- Indicator bundle consumed by calculate_signal
(src/btc_bot/analysis/indicators.py, IndicatorValues). -/
structure IndicatorValues where
  rsi : ℚ
  macd_line : ℚ
  macd_signal : ℚ
  macd_histogram : ℚ
  ema_short : ℚ
  ema_long : ℚ
  bb_upper : ℚ
  bb_middle : ℚ
  bb_lower : ℚ
  current_price : ℚ
deriving DecidableEq

/-- Weight map over the four indicators used for scoring
(src/btc_bot/config/constants.py INDICATOR_WEIGHTS keys: rsi, macd,
ema_crossover, bollinger). -/
structure Weights where
  rsi : ℚ
  macd : ℚ
  ema_crossover : ℚ
  bollinger : ℚ
deriving DecidableEq

/-- Sum of the weight map's values (Python: sum(self.weights.values())). -/
def weightSum (w : Weights) : ℚ :=
  w.rsi + w.macd + w.ema_crossover + w.bollinger

/-- MultiIndicatorScorer.__init__ weight validation: renormalize only when the
sum deviates from 1.0 by more than 0.01, otherwise keep the weights as given
(src/btc_bot/analysis/scoring.py lines 68-72).  Python raises
ZeroDivisionError when the sum is 0; here division by zero yields 0,
and the claims about this branch carry a nonzero-sum hypothesis. -/
def normalizeWeights (w : Weights) : Weights :=
  let s := weightSum w
  if abs (s - 1) > 1/100 then
    ⟨w.rsi / s, w.macd / s, w.ema_crossover / s, w.bollinger / s⟩
  else
    w

/-- MultiIndicatorScorer._score_rsi (scoring.py lines 153-171).
Signal constants: STRONG_BUY = 2, BUY = 1, STRONG_SELL = -2, SELL = -1, NEUTRAL = 0. -/
def score_rsi (cfg : IndicatorConfig) (rsi : ℚ) : ℤ :=
  if rsi < cfg.rsi_oversold then 2
  else if rsi < 40 then 1
  else if rsi > cfg.rsi_overbought then -2
  else if rsi > 60 then -1
  else 0

/-- MultiIndicatorScorer._score_macd (scoring.py lines 173-200). -/
def score_macd (macd_line signal_line histogram : ℚ) : ℤ :=
  let s1 : ℤ := if macd_line > signal_line then 1 else if macd_line < signal_line then -1 else 0
  let s2 : ℤ := if histogram > 0 then 1 else if histogram < 0 then -1 else 0
  max (-2) (min 2 (s1 + s2))

/-- MultiIndicatorScorer._score_ema_crossover (scoring.py lines 202-230). -/
def score_ema_crossover (ema_short ema_long current_price : ℚ) : ℤ :=
  let s1 : ℤ := if ema_short > ema_long then 1 else if ema_short < ema_long then -1 else 0
  let s2 : ℤ :=
    if current_price > ema_short ∧ ema_short > ema_long then 1
    else if current_price < ema_short ∧ ema_short < ema_long then -1
    else 0
  max (-2) (min 2 (s1 + s2))

/-- MultiIndicatorScorer._score_bollinger (scoring.py lines 232-262). -/
def score_bollinger (price upper middle lower : ℚ) : ℤ :=
  let band_width := upper - lower
  if band_width = 0 then 0
  else
    let position := (price - lower) / band_width
    if price < lower then 2
    else if position < 3/10 then 1
    else if price > upper then -2
    else if position > 7/10 then -1
    else 0

/-- Composite signal (scoring.py, SignalScore); the informational reasoning
string is omitted, the four per-indicator signals are carried explicitly. -/
structure SignalScore where
  direction : Direction
  confidence : ℚ
  raw_score : ℚ
  rsi_signal : ℤ
  macd_sig : ℤ
  ema_sig : ℤ
  bb_sig : ℤ
deriving DecidableEq

/-- MultiIndicatorScorer.calculate_signal (scoring.py lines 74-151), taking the
scorer's effective (already validated) weights. -/
def calculate_signal (cfg : IndicatorConfig) (w : Weights) (ind : IndicatorValues) :
    SignalScore :=
  let rsiSig := score_rsi cfg ind.rsi
  let macdSig := score_macd ind.macd_line ind.macd_signal ind.macd_histogram
  let emaSig := score_ema_crossover ind.ema_short ind.ema_long ind.current_price
  let bbSig := score_bollinger ind.current_price ind.bb_upper ind.bb_middle ind.bb_lower
  let weighted := rsiSig * w.rsi + macdSig * w.macd + emaSig * w.ema_crossover
      + bbSig * w.bollinger
  let normalized := weighted / 2
  if normalized > 1/10 then
    ⟨Direction.UP, min (abs normalized) 1, normalized, rsiSig, macdSig, emaSig, bbSig⟩
  else if normalized < -(1/10) then
    ⟨Direction.DOWN, min (abs normalized) 1, normalized, rsiSig, macdSig, emaSig, bbSig⟩
  else
    ⟨Direction.NEUTRAL, 0, normalized, rsiSig, macdSig, emaSig, bbSig⟩

/-- A MultiIndicatorScorer constructed with weight map w and asked for a signal:
the constructor validates/renormalizes the weights, calculate_signal then uses
the effective weights. -/
def scorerSignal (cfg : IndicatorConfig) (w : Weights) (ind : IndicatorValues) :
    SignalScore :=
  calculate_signal cfg (normalizeWeights w) ind

/-- A simulated trade (src/btc_bot/trading/paper_trader.py, PaperTrade).
Timestamps are modelled as rational clock values supplied by the caller. -/
structure PaperTrade where
  id : String
  timestamp : ℚ
  market_question : String
  direction : String
  prediction : Direction
  amount_usd : ℚ
  entry_price : ℚ
  token_id : String
  btc_price_at_entry : ℚ
  status : String
  exit_price : Option ℚ
  pnl : Option ℚ
  settled_at : Option ℚ
deriving DecidableEq

/-- Paper trading portfolio (paper_trader.py, PaperPortfolio). -/
structure PaperPortfolio where
  initial_balance : ℚ
  current_balance : ℚ
  trades : List PaperTrade
deriving DecidableEq

/-- The PaperTrader's mutable state: its portfolio plus the monotonic trade
counter (paper_trader.py, PaperTrader.__init__). -/
structure PaperTraderState where
  portfolio : PaperPortfolio
  trade_counter : ℕ
deriving DecidableEq

/-- A freshly created paper trader with no persisted portfolio
(paper_trader.py, _load_or_create_portfolio fallback). -/
def freshTrader (initial_balance : ℚ) : PaperTraderState :=
  ⟨⟨initial_balance, initial_balance, []⟩, 0⟩

/-- PaperTrader.execute_trade (paper_trader.py lines 190-254).  Returns the
new state paired with the created trade, or the unchanged state paired with
the ValueError message when the stake exceeds the balance.  Python formats the
id with zero padding (paper_000001); only the id string's uniqueness per
counter value matters here. -/
def execute_trade (st : PaperTraderState) (market_question : String)
    (direction : Direction) (amount current_price : ℚ) (token_id : String)
    (btc_price : ℚ) (now : ℚ) : PaperTraderState × Except String PaperTrade :=
  if amount > st.portfolio.current_balance then
    (st, Except.error "Insufficient balance")
  else
    let outcome := if direction = Direction.UP then "YES" else "NO"
    let counter := st.trade_counter + 1
    let trade : PaperTrade :=
      { id := "paper_" ++ toString counter
        timestamp := now
        market_question := market_question
        direction := outcome
        prediction := direction
        amount_usd := amount
        entry_price := current_price
        token_id := token_id
        btc_price_at_entry := btc_price
        status := "OPEN"
        exit_price := none
        pnl := none
        settled_at := none }
    (⟨⟨st.portfolio.initial_balance,
        st.portfolio.current_balance - amount,
        st.portfolio.trades ++ [trade]⟩, counter⟩,
     Except.ok trade)

/-- The in-place mutation settle_trade applies to the found OPEN trade
(paper_trader.py lines 274-285). -/
def settleTradeRecord (t : PaperTrade) (won : Bool) (exit_price now : ℚ) :
    PaperTrade :=
  if won then
    let shares := t.amount_usd / t.entry_price
    let payout := shares * 1
    { t with exit_price := some exit_price, settled_at := some now,
             pnl := some (payout - t.amount_usd), status := "WON" }
  else
    { t with exit_price := some exit_price, settled_at := some now,
             pnl := some (-t.amount_usd), status := "LOST" }

/-- Walk the trade list the way Python's next(...) + in-place mutation does:
settle the first trade whose id matches (if it is OPEN), leave the rest
untouched, and report the balance delta amount_usd + pnl (0 when nothing was
settled). -/
def settleList (trades : List PaperTrade) (trade_id : String) (won : Bool)
    (exit_price now : ℚ) : List PaperTrade × ℚ :=
  match trades with
  | [] => ([], 0)
  | t :: rest =>
    if t.id = trade_id then
      if t.status = "OPEN" then
        let t2 := settleTradeRecord t won exit_price now
        (t2 :: rest, t.amount_usd + (t2.pnl.getD 0))
      else
        (t :: rest, 0)
    else
      let p := settleList rest trade_id won exit_price now
      (t :: p.1, p.2)

/-- PaperTrader.settle_trade (paper_trader.py lines 256-298).  Unknown or
already-settled trade ids log a warning and change nothing. -/
def settle_trade (st : PaperTraderState) (trade_id : String) (won : Bool)
    (exit_price : ℚ) (now : ℚ) : PaperTraderState :=
  let p := settleList st.portfolio.trades trade_id won exit_price now
  ⟨⟨st.portfolio.initial_balance,
    st.portfolio.current_balance + p.2,
    p.1⟩, st.trade_counter⟩

/-- A Bitcoin prediction market (src/btc_bot/api/polymarket/markets.py,
BitcoinMarket).  end_date is the resolution time in hours on the same clock as
the selector's now; none models a date the selector fails to subtract
(the try/except in select_best_market). -/
structure BitcoinMarket where
  condition_id : String
  question : String
  yes_token_id : String
  no_token_id : String
  end_date : Option ℚ
  current_yes_price : ℚ
  current_no_price : ℚ
  volume : ℚ
  liquidity : ℚ
deriving DecidableEq

/-- BitcoinMarket.spread: deviation of YES+NO prices from 1.0. -/
def BitcoinMarket.spread (m : BitcoinMarket) : ℚ :=
  abs (m.current_yes_price + m.current_no_price - 1)

/-- The spread (liquidity) component of select_best_market's score
(executor.py lines 244-252); none means the market is skipped as illiquid. -/
def spreadScore (m : BitcoinMarket) : Option ℤ :=
  if m.spread < 2/100 then some 3
  else if m.spread < 5/100 then some 2
  else if m.spread < 10/100 then some 1
  else none

/-- The time-to-resolution score as a function of hours_to_resolution
(executor.py lines 260-267); none means the market is skipped as expired. -/
def timeScoreAt (h : ℚ) : Option ℤ :=
  if 1/4 ≤ h ∧ h ≤ 1 then some 3
  else if 1 < h ∧ h ≤ 4 then some 2
  else if 4 < h ∧ h ≤ 24 then some 1
  else if h ≤ 0 then none
  else some 0

/-- The time-to-resolution component of select_best_market's score
(executor.py lines 254-269); an unparseable date contributes 0 via the
except-pass branch. -/
def marketTimeScore (m : BitcoinMarket) (now : ℚ) : Option ℤ :=
  match m.end_date with
  | none => some 0
  | some ed => timeScoreAt (ed - now)

/-- The full per-market score of select_best_market (executor.py lines
241-275); none means the market is skipped (illiquid or expired). -/
def marketScore (m : BitcoinMarket) (now : ℚ) : Option ℤ :=
  match spreadScore m with
  | none => none
  | some s =>
    match marketTimeScore m now with
    | none => none
    | some ts => some (s + ts + (if m.volume > 10000 then 1 else 0))

/-- The scored_markets list built by select_best_market, in input order. -/
def scoredMarkets (markets : List BitcoinMarket) (now : ℚ) :
    List (ℤ × BitcoinMarket) :=
  markets.filterMap (fun m => (marketScore m now).map (fun s => (s, m)))

/-- Python's max over (score, market) pairs keyed on the score: keeps the
current best unless a later element scores strictly higher, so the first
maximal element wins. -/
def pickBest (x : ℤ × BitcoinMarket) (xs : List (ℤ × BitcoinMarket)) :
    ℤ × BitcoinMarket :=
  xs.foldl (fun best y => if y.1 > best.1 then y else best) x

/-- select_best_market (executor.py lines 218-281). -/
def select_best_market (markets : List BitcoinMarket) (now : ℚ) :
    Option BitcoinMarket :=
  match scoredMarkets markets now with
  | [] => none
  | x :: xs => some (pickBest x xs).2

/-- The slice of TradingConfig the executor reads (settings.py). -/
structure TradingConfig where
  trade_amount_usd : ℚ
  max_daily_trades : ℕ
  min_score_threshold : ℚ
deriving DecidableEq

/-- Execution outcome record (the status/reason part of the dict
TradeExecutor.execute returns). -/
structure ExecResult where
  status : String
  reason : Option String
deriving DecidableEq

/-- TradeExecutor state: the wrapped paper trader plus the daily counter
(executor.py, TradeExecutor.__init__). -/
structure ExecutorState where
  paper : PaperTraderState
  daily_trades : ℕ
deriving DecidableEq

/-- TradeExecutor.execute in paper mode (executor.py lines 39-129 and
_execute_paper lines 131-172); live mode hands off to the external venue and
is outside the decision core.  The counter is incremented exactly on status
EXECUTED. -/
def TradeExecutor.execute (cfg : TradingConfig) (st : ExecutorState)
    (market : BitcoinMarket) (signal : SignalScore) (btc_price : ℚ) (now : ℚ) :
    ExecutorState × ExecResult :=
  if signal.direction = Direction.NEUTRAL then
    (st, ⟨"SKIPPED", some "neutral_signal"⟩)
  else if signal.confidence < cfg.min_score_threshold then
    (st, ⟨"SKIPPED", some "low_confidence"⟩)
  else if st.daily_trades ≥ cfg.max_daily_trades then
    (st, ⟨"SKIPPED", some "daily_limit_reached"⟩)
  else
    let token_id :=
      if signal.direction = Direction.UP then market.yes_token_id
      else market.no_token_id
    let price :=
      if signal.direction = Direction.UP then market.current_yes_price
      else market.current_no_price
    let amount := cfg.trade_amount_usd
    let r := execute_trade st.paper market.question signal.direction amount price
        token_id btc_price now
    match r.2 with
    | Except.ok _ => (⟨r.1, st.daily_trades + 1⟩, ⟨"EXECUTED", none⟩)
    | Except.error e => (st, ⟨"FAILED", some e⟩)

/-- TradeExecutor.reset_daily_counter (executor.py lines 208-211). -/
def reset_daily_counter (st : ExecutorState) : ExecutorState :=
  ⟨st.paper, 0⟩

/-! ## Helper lemmas -/

/-- settle_trade on a list whose only trade with the target id is the freshly
appended OPEN one settles exactly that trade. -/
theorem settleList_append_fresh (l : List PaperTrade) (t : PaperTrade)
    (trade_id : String) (won : Bool) (ep now : ℚ)
    (hfresh : ∀ x ∈ l, x.id ≠ trade_id) (ht : t.id = trade_id)
    (hs : t.status = "OPEN") :
    settleList (l ++ [t]) trade_id won ep now
      = (l ++ [settleTradeRecord t won ep now],
         t.amount_usd + ((settleTradeRecord t won ep now).pnl.getD 0)) := by
  induction l with
  | nil => simp [settleList, ht, hs]
  | cons x xs ih =>
    have hx : x.id ≠ trade_id := hfresh x (by simp)
    have ih2 := ih (fun y hy => hfresh y (by simp [hy]))
    simp only [List.cons_append, settleList, List.append_eq]
    rw [if_neg hx, ih2]

/-- If no trade with the target id is still OPEN, settleList changes nothing. -/
theorem settleList_noop (trades : List PaperTrade) (trade_id : String)
    (won : Bool) (ep now : ℚ)
    (h : ∀ t ∈ trades, t.id = trade_id → t.status ≠ "OPEN") :
    settleList trades trade_id won ep now = (trades, 0) := by
  induction trades with
  | nil => simp [settleList]
  | cons t rest ih =>
    by_cases hid : t.id = trade_id
    · have := h t (by simp) hid
      simp [settleList, hid, this]
    · have ih2 := ih (fun y hy => h y (by simp [hy]))
      simp [settleList, hid, ih2]

/-- settleTradeRecord keeps the trade's id. -/
theorem settleTradeRecord_id (t : PaperTrade) (won : Bool) (ep now : ℚ) :
    (settleTradeRecord t won ep now).id = t.id := by
  cases won <;> simp [settleTradeRecord]

/-- settleTradeRecord moves the trade out of OPEN. -/
theorem settleTradeRecord_status (t : PaperTrade) (won : Bool) (ep now : ℚ) :
    (settleTradeRecord t won ep now).status ≠ "OPEN" := by
  cases won <;> simp [settleTradeRecord]

/-- Settling the same id twice (same outcome) leaves the second call a no-op
at the settleList level. -/
theorem settleList_idem (trades : List PaperTrade) (trade_id : String)
    (won : Bool) (ep now now2 : ℚ) :
    settleList (settleList trades trade_id won ep now).1 trade_id won ep now2
      = ((settleList trades trade_id won ep now).1, 0) := by
  induction trades with
  | nil => simp [settleList]
  | cons t rest ih =>
    by_cases hid : t.id = trade_id
    · by_cases hopen : t.status = "OPEN"
      · simp only [settleList, hid, hopen, if_true]
        have h2 := settleTradeRecord_status t won ep now
        have h1 := settleTradeRecord_id t won ep now
        simp [settleList, h1, hid, h2]
      · simp [settleList, hid, hopen]
    · simp [settleList, hid, ih]

/-! ## C1: settlement of a WON trade with stake 100, entry price 0.40 -/

/-- A portfolio holding one OPEN trade of stake 100 at entry price 0.40,
with the stake already debited (balance 900 out of 1000). -/
def c1Trade : PaperTrade :=
  { id := "paper_1", timestamp := 0, market_question := "q", direction := "YES",
    prediction := Direction.UP, amount_usd := 100, entry_price := 2/5,
    token_id := "tok", btc_price_at_entry := 50000, status := "OPEN",
    exit_price := none, pnl := none, settled_at := none }

/-- Trader state around c1Trade. -/
def c1Trader : PaperTraderState := ⟨⟨1000, 900, [c1Trade]⟩, 1⟩

/-- C1 counterexample: settling the WON trade (stake 100, entry 0.40) credits
amount_usd + pnl = 250 back to the balance, so the settle operation increases
the balance by 250, not by 150. -/
theorem C1_counterexample :
    (settle_trade c1Trader "paper_1" true 1 0).portfolio.current_balance
        - c1Trader.portfolio.current_balance = 250
      ∧ (250 : ℚ) ≠ 150 := by
  constructor
  · norm_num [settle_trade, settleList, settleTradeRecord, c1Trader, c1Trade]
  · norm_num

/-- C1 (amended): executing a trade with stake 100 at entry price 0.40 debits
the 100 stake; settling it as WON computes shares = 250, payout = 250,
pnl = 150 and credits amount_usd + pnl = 250 back, so the settle step raises
the balance by 250 and the net effect of execute-then-settle is exactly
+150. -/
theorem C1_amended (st : PaperTraderState) (q tok : String) (btc now now2 : ℚ)
    (hbal : (100 : ℚ) ≤ st.portfolio.current_balance)
    (hfresh : ∀ t ∈ st.portfolio.trades,
      t.id ≠ "paper_" ++ toString (st.trade_counter + 1)) :
    ∃ tr : PaperTrade,
      execute_trade st q Direction.UP 100 (2/5) tok btc now
        = (⟨⟨st.portfolio.initial_balance, st.portfolio.current_balance - 100,
            st.portfolio.trades ++ [tr]⟩, st.trade_counter + 1⟩, Except.ok tr)
      ∧ tr.amount_usd = 100 ∧ tr.entry_price = 2/5 ∧ tr.status = "OPEN"
      ∧ (settle_trade (execute_trade st q Direction.UP 100 (2/5) tok btc
            now).1 tr.id true 1 now2).portfolio.current_balance
        = (execute_trade st q Direction.UP 100 (2/5) tok btc
            now).1.portfolio.current_balance + 250
      ∧ (settle_trade (execute_trade st q Direction.UP 100 (2/5) tok btc
            now).1 tr.id true 1 now2).portfolio.current_balance
        = st.portfolio.current_balance + 150
      ∧ ∃ t2 ∈ (settle_trade (execute_trade st q Direction.UP 100 (2/5) tok
            btc now).1 tr.id true 1 now2).portfolio.trades,
          t2.status = "WON" ∧ t2.pnl = some 150 := by
  have hb : ¬ ((100 : ℚ) > st.portfolio.current_balance) := not_lt.mpr hbal
  refine ⟨⟨"paper_" ++ toString (st.trade_counter + 1),
      now, q, "YES", Direction.UP, 100, 2/5, tok, btc, "OPEN",
      none, none, none⟩, ?_⟩
  have hexec : execute_trade st q Direction.UP 100 (2/5) tok btc now
      = (⟨⟨st.portfolio.initial_balance, st.portfolio.current_balance - 100,
          st.portfolio.trades ++ [⟨"paper_" ++ toString (st.trade_counter + 1),
            now, q, "YES", Direction.UP, 100, 2/5, tok, btc, "OPEN",
            none, none, none⟩]⟩, st.trade_counter + 1⟩,
        Except.ok ⟨"paper_" ++ toString (st.trade_counter + 1),
          now, q, "YES", Direction.UP, 100, 2/5, tok, btc, "OPEN",
          none, none, none⟩) := by
    rw [execute_trade, if_neg hb]
    rfl
  have hset := settleList_append_fresh st.portfolio.trades
    ⟨"paper_" ++ toString (st.trade_counter + 1),
      now, q, "YES", Direction.UP, 100, 2/5, tok, btc, "OPEN",
      none, none, none⟩
    ("paper_" ++ toString (st.trade_counter + 1)) true 1 now2
    hfresh rfl rfl
  refine ⟨hexec, rfl, rfl, rfl, ?_, ?_, ?_⟩
  · rw [hexec]
    simp only [settle_trade, hset, settleTradeRecord]
    norm_num
  · rw [hexec]
    simp only [settle_trade, hset, settleTradeRecord]
    norm_num
    ring
  · rw [hexec]
    refine ⟨settleTradeRecord
      ⟨"paper_" ++ toString (st.trade_counter + 1),
        now, q, "YES", Direction.UP, 100, 2/5, tok, btc, "OPEN",
        none, none, none⟩ true 1 now2, ?_, ?_, ?_⟩
    · simp [settle_trade, hset]
    · simp [settleTradeRecord]
    · simp only [settleTradeRecord, if_pos]
      norm_num

/-- C1 witness: the amended statement instantiated on a fresh trader with
balance 1000. -/
theorem C1_witness :
    ∃ tr : PaperTrade,
      execute_trade (freshTrader 1000) "q" Direction.UP 100 (2/5) "tok"
          50000 0
        = (⟨⟨(freshTrader 1000).portfolio.initial_balance,
            (freshTrader 1000).portfolio.current_balance - 100,
            (freshTrader 1000).portfolio.trades ++ [tr]⟩,
            (freshTrader 1000).trade_counter + 1⟩, Except.ok tr)
      ∧ tr.amount_usd = 100 ∧ tr.entry_price = 2/5 ∧ tr.status = "OPEN"
      ∧ (settle_trade (execute_trade (freshTrader 1000) "q" Direction.UP 100
            (2/5) "tok" 50000 0).1 tr.id true 1
            0).portfolio.current_balance
        = (execute_trade (freshTrader 1000) "q" Direction.UP 100 (2/5) "tok"
            50000 0).1.portfolio.current_balance + 250
      ∧ (settle_trade (execute_trade (freshTrader 1000) "q" Direction.UP 100
            (2/5) "tok" 50000 0).1 tr.id true 1
            0).portfolio.current_balance
        = (freshTrader 1000).portfolio.current_balance + 150
      ∧ ∃ t2 ∈ (settle_trade (execute_trade (freshTrader 1000) "q"
            Direction.UP 100 (2/5) "tok" 50000 0).1 tr.id true 1
            0).portfolio.trades,
          t2.status = "WON" ∧ t2.pnl = some 150 :=
  C1_amended (freshTrader 1000) "q" "tok" 50000 0 0
    (by norm_num [freshTrader]) (by simp [freshTrader])

/-! ## C2: weight renormalization -/

/-- A nonnegative weight map summing to 1.005: inside the 1% tolerance, so
the scorer keeps it as-is. -/
def c2w : Weights := ⟨1/4, 51/200, 1/4, 1/4⟩

/-- C2 counterexample: c2w has nonnegative entries and its sum 1.005 is not
1.0, yet the scorer does not renormalize it, and the effective weights it
uses sum to 1.005, which is not within 1e-6 of 1.0. -/
theorem C2_counterexample :
    (0 ≤ c2w.rsi ∧ 0 ≤ c2w.macd ∧ 0 ≤ c2w.ema_crossover ∧ 0 ≤ c2w.bollinger)
      ∧ weightSum c2w ≠ 1
      ∧ normalizeWeights c2w = c2w
      ∧ ¬ (abs (weightSum (normalizeWeights c2w) - 1) ≤ 1/1000000) := by
  refine ⟨⟨?_, ?_, ?_, ?_⟩, ?_, ?_, ?_⟩ <;>
    norm_num [c2w, weightSum, normalizeWeights, abs_of_nonneg, abs_of_pos]

/-- C2 (amended): the scorer renormalizes only when the weight sum deviates
from 1.0 by more than the 0.01 tolerance; in that case (for a nonzero sum)
the effective weights sum to exactly 1.0, hence within 1e-6.  Weight maps
inside the tolerance are used as given. -/
theorem C2_amended (w : Weights) (hs : weightSum w ≠ 0)
    (hdev : abs (weightSum w - 1) > 1/100) :
    weightSum (normalizeWeights w) = 1
      ∧ abs (weightSum (normalizeWeights w) - 1) ≤ 1/1000000 := by
  have h1 : weightSum (normalizeWeights w) = 1 := by
    rw [normalizeWeights]
    rw [if_pos hdev]
    show w.rsi / weightSum w + w.macd / weightSum w + w.ema_crossover / weightSum w
        + w.bollinger / weightSum w = 1
    rw [div_add_div_same, div_add_div_same, div_add_div_same]
    exact div_self hs
  exact ⟨h1, by rw [h1]; norm_num⟩

/-- C2 witness: a weight map summing to 2 is renormalized to sum exactly 1. -/
theorem C2_witness :
    weightSum (normalizeWeights ⟨1/2, 1/2, 1/2, 1/2⟩) = 1
      ∧ abs (weightSum (normalizeWeights ⟨1/2, 1/2, 1/2, 1/2⟩) - 1)
        ≤ 1/1000000 :=
  C2_amended ⟨1/2, 1/2, 1/2, 1/2⟩ (by norm_num [weightSum])
    (by norm_num [weightSum])

/-! ## C3: RSI boundary behaviour at the oversold threshold -/

/-- C3 counterexample: with the default thresholds (oversold 30, overbought
70), an RSI exactly at the oversold boundary scores +1 (the below-40 BUY
branch), not 0. -/
theorem C3_counterexample :
    score_rsi ⟨30, 70⟩ 30 = 1 ∧ (1 : ℤ) ≠ 0 := by
  constructor
  · norm_num [score_rsi]
  · norm_num

/-- C3 (amended): the strong-buy boundary is indeed exclusive — an RSI exactly
at the oversold threshold never scores +2, and one point below it scores +2 —
but at the boundary the value falls through to the next branch, scoring +1
whenever the oversold threshold is below 40 (rather than 0). -/
theorem C3_amended (cfg : IndicatorConfig) :
    score_rsi cfg cfg.rsi_oversold ≠ 2
      ∧ score_rsi cfg (cfg.rsi_oversold - 1) = 2
      ∧ (cfg.rsi_oversold < 40 → score_rsi cfg cfg.rsi_oversold = 1) := by
  refine ⟨?_, ?_, ?_⟩
  · rw [score_rsi, if_neg (lt_irrefl cfg.rsi_oversold)]
    split_ifs <;> norm_num
  · rw [score_rsi, if_pos (by linarith)]
  · intro h40
    rw [score_rsi, if_neg (lt_irrefl cfg.rsi_oversold), if_pos h40]

/-- C3 witness: the amended statement at the default thresholds. -/
theorem C3_witness :
    score_rsi ⟨30, 70⟩ 30 ≠ 2 ∧ score_rsi ⟨30, 70⟩ (30 - 1) = 2
      ∧ score_rsi ⟨30, 70⟩ 30 = 1 := by
  have h := C3_amended ⟨30, 70⟩
  exact ⟨h.1, h.2.1, h.2.2 (by norm_num)⟩

/-! ## C6: daily trade limit skip is a pure decision -/

/-- C6: when the daily counter has reached the configured maximum and the
signal is non-neutral with confidence at or above the threshold, execute
returns SKIPPED with reason daily_limit_reached and hands back the executor
state unchanged: the portfolio (balance and trade list) and the daily counter
are exactly as before. -/
theorem C6_daily_limit (cfg : TradingConfig) (st : ExecutorState)
    (market : BitcoinMarket) (signal : SignalScore) (btc_price now : ℚ)
    (hdir : signal.direction ≠ Direction.NEUTRAL)
    (hconf : cfg.min_score_threshold ≤ signal.confidence)
    (hlimit : cfg.max_daily_trades ≤ st.daily_trades) :
    TradeExecutor.execute cfg st market signal btc_price now
      = (st, ⟨"SKIPPED", some "daily_limit_reached"⟩) := by
  rw [TradeExecutor.execute, if_neg hdir, if_neg (not_lt.mpr hconf),
    if_pos hlimit]

/-- C6 witness: a concrete executor at its daily cap skips and keeps its
state. -/
theorem C6_witness :
    TradeExecutor.execute ⟨10, 2, 3/5⟩ ⟨freshTrader 1000, 2⟩
        ⟨"c", "q", "y", "n", some 1, 1/2, 1/2, 0, 0⟩
        ⟨Direction.UP, 7/10, 7/20, 2, 2, 2, 2⟩ 50000 0
      = (⟨freshTrader 1000, 2⟩, ⟨"SKIPPED", some "daily_limit_reached"⟩) :=
  C6_daily_limit ⟨10, 2, 3/5⟩ ⟨freshTrader 1000, 2⟩
    ⟨"c", "q", "y", "n", some 1, 1/2, 1/2, 0, 0⟩
    ⟨Direction.UP, 7/10, 7/20, 2, 2, 2, 2⟩ 50000 0
    (by simp) (by norm_num) (by norm_num)

/-! ## C7: insufficient-funds behaviour of execute_trade -/

/-- C7: the simulated execute_trade fails exactly when the stake exceeds the
current balance; on failure the state (balance and trade list) is returned
unchanged and no trade is created, and a stake exactly equal to the balance
executes, leaving balance 0. -/
theorem C7_insufficient_funds (st : PaperTraderState) (q : String)
    (d : Direction) (amount price : ℚ) (tok : String) (btc now : ℚ) :
    ((∃ e, (execute_trade st q d amount price tok btc now).2
        = Except.error e) ↔ amount > st.portfolio.current_balance)
      ∧ (amount > st.portfolio.current_balance →
          (execute_trade st q d amount price tok btc now).1 = st)
      ∧ (amount = st.portfolio.current_balance →
          (execute_trade st q d amount price tok btc now).1.portfolio.current_balance = 0
          ∧ ∃ tr, (execute_trade st q d amount price tok btc now).2
              = Except.ok tr) := by
  by_cases h : amount > st.portfolio.current_balance
  · refine ⟨⟨fun _ => h, fun _ => ?_⟩, fun _ => ?_, fun heq => ?_⟩
    · rw [execute_trade, if_pos h]
      exact ⟨"Insufficient balance", rfl⟩
    · rw [execute_trade, if_pos h]
    · exact absurd heq (by intro heq; rw [heq] at h; exact lt_irrefl _ h)
  · refine ⟨⟨fun ⟨e, he⟩ => ?_, fun hgt => absurd hgt h⟩, fun hgt => absurd hgt h,
      fun heq => ?_⟩
    · rw [execute_trade, if_neg h] at he
      exact absurd he (by simp)
    · constructor
      · rw [execute_trade, if_neg h]
        show st.portfolio.current_balance - amount = 0
        rw [heq, sub_self]
      · rw [execute_trade, if_neg h]
        exact ⟨_, rfl⟩

/-- C7 witness: a stake of exactly the whole 100 balance executes and leaves
the balance at 0, and the failure condition is indeed not met there. -/
theorem C7_witness :
    (execute_trade (freshTrader 100) "q" Direction.UP 100 (1/2) "tok" 50000
        0).1.portfolio.current_balance = 0
      ∧ ∃ tr, (execute_trade (freshTrader 100) "q" Direction.UP 100 (1/2)
          "tok" 50000 0).2 = Except.ok tr :=
  (C7_insufficient_funds (freshTrader 100) "q" Direction.UP 100 (1/2) "tok"
    50000 0).2.2 (by norm_num [freshTrader])

/-! ## C8: settlement of unknown or already-settled trades -/

/-- C8: settling an unknown trade id, or one whose trade is no longer OPEN,
is a no-op on the whole trader state (balance, trade list and every trade's
fields); consequently settling the same id with the same outcome twice gives
exactly the state of settling it once. -/
theorem C8_settle_noop_idem :
    (∀ (st : PaperTraderState) (trade_id : String) (won : Bool) (ep now : ℚ),
        (∀ t ∈ st.portfolio.trades, t.id = trade_id → t.status ≠ "OPEN") →
        settle_trade st trade_id won ep now = st)
      ∧ (∀ (st : PaperTraderState) (trade_id : String) (won : Bool)
          (ep now now2 : ℚ),
          settle_trade (settle_trade st trade_id won ep now) trade_id won ep
            now2 = settle_trade st trade_id won ep now) := by
  constructor
  · intro st trade_id won ep now h
    rw [settle_trade, settleList_noop st.portfolio.trades trade_id won ep now h]
    simp
  · intro st trade_id won ep now now2
    simp only [settle_trade]
    rw [settleList_idem st.portfolio.trades trade_id won ep now now2]
    simp

/-- C8 witness: settling an id absent from a concrete portfolio changes
nothing. -/
theorem C8_witness :
    settle_trade (freshTrader 1000) "paper_9" true 1 0 = freshTrader 1000 :=
  C8_settle_noop_idem.1 (freshTrader 1000) "paper_9" true 1 0
    (by simp [freshTrader])

/-! ## C10: the accounting identity of the simulated portfolio -/

/-- Total stake currently tied up in OPEN trades. -/
def openStake (trades : List PaperTrade) : ℚ :=
  (trades.map (fun t => if t.status = "OPEN" then t.amount_usd else 0)).sum

/-- Total recorded profit/loss of settled (WON or LOST) trades. -/
def settledPnl (trades : List PaperTrade) : ℚ :=
  (trades.map (fun t =>
    if t.status = "WON" ∨ t.status = "LOST" then t.pnl.getD 0 else 0)).sum

/-- The accounting identity: current balance = initial balance minus open
stakes plus settled profit/loss. -/
def accounting (p : PaperPortfolio) : Prop :=
  p.current_balance = p.initial_balance - openStake p.trades
    + settledPnl p.trades

/-- One externally triggered operation on the paper trader. -/
inductive TraderOp where
  | execOp (q : String) (d : Direction) (amount price : ℚ) (tok : String)
      (btc now : ℚ)
  | settleOp (trade_id : String) (won : Bool) (ep now : ℚ)

/-- Apply an operation to the trader state (a failed execute_trade leaves the
state unchanged). -/
def applyOp (st : PaperTraderState) (op : TraderOp) : PaperTraderState :=
  match op with
  | TraderOp.execOp q d amount price tok btc now =>
      (execute_trade st q d amount price tok btc now).1
  | TraderOp.settleOp trade_id won ep now =>
      settle_trade st trade_id won ep now

theorem openStake_cons (t : PaperTrade) (l : List PaperTrade) :
    openStake (t :: l)
      = (if t.status = "OPEN" then t.amount_usd else 0) + openStake l := by
  simp [openStake]

theorem settledPnl_cons (t : PaperTrade) (l : List PaperTrade) :
    settledPnl (t :: l)
      = (if t.status = "WON" ∨ t.status = "LOST" then t.pnl.getD 0 else 0)
        + settledPnl l := by
  simp [settledPnl]

theorem openStake_append (l1 l2 : List PaperTrade) :
    openStake (l1 ++ l2) = openStake l1 + openStake l2 := by
  simp [openStake]

theorem settledPnl_append (l1 l2 : List PaperTrade) :
    settledPnl (l1 ++ l2) = settledPnl l1 + settledPnl l2 := by
  simp [settledPnl]

theorem settleTradeRecord_amount (t : PaperTrade) (won : Bool) (ep now : ℚ) :
    (settleTradeRecord t won ep now).amount_usd = t.amount_usd := by
  cases won <;> simp [settleTradeRecord]

theorem settleTradeRecord_settled (t : PaperTrade) (won : Bool) (ep now : ℚ) :
    (settleTradeRecord t won ep now).status = "WON"
      ∨ (settleTradeRecord t won ep now).status = "LOST" := by
  cases won
  · exact Or.inr (by simp [settleTradeRecord])
  · exact Or.inl (by simp [settleTradeRecord])

/-- Settling moves exactly the reported balance delta from the open-stake and
settled-pnl ledgers into the balance. -/
theorem settleList_balance (trades : List PaperTrade) (trade_id : String)
    (won : Bool) (ep now : ℚ) :
    settledPnl (settleList trades trade_id won ep now).1
        - openStake (settleList trades trade_id won ep now).1
      = settledPnl trades - openStake trades
        + (settleList trades trade_id won ep now).2 := by
  induction trades with
  | nil => simp [settleList]
  | cons t rest ih =>
    by_cases hid : t.id = trade_id
    · by_cases hopen : t.status = "OPEN"
      · simp only [settleList, if_pos hid, if_pos hopen]
        rw [openStake_cons, settledPnl_cons, openStake_cons, settledPnl_cons]
        rw [if_neg (settleTradeRecord_status t won ep now),
          if_pos (settleTradeRecord_settled t won ep now), if_pos hopen,
          if_neg (by rw [hopen]; simp)]
        ring
      · simp only [settleList, if_pos hid, if_neg hopen]
        ring
    · simp only [settleList, if_neg hid]
      rw [openStake_cons, settledPnl_cons, openStake_cons, settledPnl_cons]
      linarith [ih]

/-- Every single operation preserves the accounting identity. -/
theorem applyOp_accounting (st : PaperTraderState) (op : TraderOp)
    (h : accounting st.portfolio) : accounting (applyOp st op).portfolio := by
  cases op with
  | execOp q d amount price tok btc now =>
    by_cases hb : amount > st.portfolio.current_balance
    · show accounting (execute_trade st q d amount price tok btc now).1.portfolio
      rw [execute_trade, if_pos hb]
      exact h
    · show accounting (execute_trade st q d amount price tok btc now).1.portfolio
      rw [execute_trade, if_neg hb, accounting]
      rw [accounting] at h
      simp only [openStake, settledPnl] at h ⊢
      simp only [List.map_append, List.sum_append, List.map_cons,
        List.map_nil, List.sum_cons, List.sum_nil]
      norm_num
      linarith [h]
    | settleOp trade_id won ep now =>
      show accounting (settle_trade st trade_id won ep now).portfolio
      rw [settle_trade]
      show st.portfolio.current_balance + _
        = st.portfolio.initial_balance - openStake _ + settledPnl _
      have hb := settleList_balance st.portfolio.trades trade_id won ep now
      rw [accounting] at h
      rw [h]
      linarith

/-- C10: from a fresh portfolio, every sequence of execute/settle operations
keeps current_balance = initial_balance - (stake of OPEN trades)
+ (pnl of settled trades), and each single operation preserves this
identity. -/
theorem C10_accounting :
    (∀ (st : PaperTraderState) (op : TraderOp),
        accounting st.portfolio → accounting (applyOp st op).portfolio)
      ∧ (∀ (b : ℚ) (ops : List TraderOp),
        accounting ((ops.foldl applyOp (freshTrader b)).portfolio)) := by
  refine ⟨applyOp_accounting, fun b ops => ?_⟩
  have hbase : accounting (freshTrader b).portfolio := by
    simp [accounting, freshTrader, openStake, settledPnl]
  have hgen : ∀ (l : List TraderOp) (st : PaperTraderState),
      accounting st.portfolio → accounting ((l.foldl applyOp st).portfolio) := by
    intro l
    induction l with
    | nil => exact fun st h => h
    | cons op rest ih =>
      intro st h
      exact ih (applyOp st op) (applyOp_accounting st op h)
  exact hgen ops (freshTrader b) hbase

/-- C10 witness: one concrete execute step from a fresh portfolio keeps the
identity. -/
theorem C10_witness :
    accounting (applyOp (freshTrader 1000)
        (TraderOp.execOp "q" Direction.UP 100 (1/2) "tok" 50000 0)).portfolio :=
  C10_accounting.1 (freshTrader 1000)
    (TraderOp.execOp "q" Direction.UP 100 (1/2) "tok" 50000 0)
    (by simp [accounting, freshTrader, openStake, settledPnl])

/-! ## C4: the market selector's safety guarantees -/

/-- A market the selector skips outright: spread at or above 0.10, or a
parseable resolution time not in the future. -/
def isIneligible (m : BitcoinMarket) (now : ℚ) : Prop :=
  1/10 ≤ m.spread ∨ ∃ ed, m.end_date = some ed ∧ ed ≤ now

/-- A market with spread at or above 0.10 is skipped. -/
theorem marketScore_none_of_wide (m : BitcoinMarket) (now : ℚ)
    (hsp : 1/10 ≤ m.spread) : marketScore m now = none := by
  have h1 : ¬ m.spread < 2/100 := by intro hc; linarith
  have h2 : ¬ m.spread < 5/100 := by intro hc; linarith
  have h3 : ¬ m.spread < 10/100 := by intro hc; linarith
  have hs : spreadScore m = none := by
    rw [spreadScore, if_neg h1, if_neg h2, if_neg h3]
  unfold marketScore
  rw [hs]

/-- A market whose parseable resolution time is not in the future is skipped
by the time scorer. -/
theorem marketTimeScore_none_of_past (m : BitcoinMarket) (now ed : ℚ)
    (hed : m.end_date = some ed) (hle : ed ≤ now) :
    marketTimeScore m now = none := by
  have h1 : ¬ (1/4 ≤ ed - now ∧ ed - now ≤ 1) := by rintro ⟨a, b⟩; linarith
  have h2 : ¬ (1 < ed - now ∧ ed - now ≤ 4) := by rintro ⟨a, b⟩; linarith
  have h3 : ¬ (4 < ed - now ∧ ed - now ≤ 24) := by rintro ⟨a, b⟩; linarith
  have h4 : ed - now ≤ 0 := by linarith
  unfold marketTimeScore
  rw [hed]
  show timeScoreAt (ed - now) = none
  rw [timeScoreAt, if_neg h1, if_neg h2, if_neg h3, if_pos h4]

/-- No time score means no market score. -/
theorem marketScore_none_of_time (m : BitcoinMarket) (now : ℚ)
    (ht : marketTimeScore m now = none) : marketScore m now = none := by
  unfold marketScore
  cases hsp : spreadScore m with
  | none => rfl
  | some s =>
    rw [ht]

/-- A scored market's spread is below 0.10. -/
theorem marketScore_some_spread (m : BitcoinMarket) (now : ℚ) (sc : ℤ)
    (h : marketScore m now = some sc) : m.spread < 1/10 := by
  by_contra hsp
  push_neg at hsp
  rw [marketScore_none_of_wide m now hsp] at h
  exact Option.noConfusion h

/-- A scored market's parseable resolution time lies strictly in the
future. -/
theorem marketScore_some_future (m : BitcoinMarket) (now : ℚ) (sc : ℤ)
    (h : marketScore m now = some sc) :
    ∀ ed, m.end_date = some ed → now < ed := by
  intro ed hed
  by_contra hpast
  push_neg at hpast
  rw [marketScore_none_of_time m now
    (marketTimeScore_none_of_past m now ed hed hpast)] at h
  exact Option.noConfusion h

/-- An ineligible market is never scored. -/
theorem isIneligible_score_none (m : BitcoinMarket) (now : ℚ)
    (h : isIneligible m now) : marketScore m now = none := by
  cases h with
  | inl hsp => exact marketScore_none_of_wide m now hsp
  | inr hpast =>
    obtain ⟨ed, hed, hle⟩ := hpast
    exact marketScore_none_of_time m now
      (marketTimeScore_none_of_past m now ed hed hle)

/-- The element pickBest returns comes from the list it inspected. -/
theorem pickBest_mem (x : ℤ × BitcoinMarket) (xs : List (ℤ × BitcoinMarket)) :
    pickBest x xs ∈ x :: xs := by
  induction xs generalizing x with
  | nil => simp [pickBest]
  | cons y ys ih =>
    have hstep : pickBest x (y :: ys)
        = pickBest (if y.1 > x.1 then y else x) ys := rfl
    rw [hstep]
    have h := ih (if y.1 > x.1 then y else x)
    by_cases hy : y.1 > x.1
    · rw [if_pos hy] at h
      rw [if_pos hy]
      rcases List.mem_cons.mp h with h1 | h1
      · rw [h1]
        exact List.mem_cons_of_mem _ (List.mem_cons_self _ _)
      · exact List.mem_cons_of_mem _ (List.mem_cons_of_mem _ h1)
    · rw [if_neg hy] at h
      rw [if_neg hy]
      rcases List.mem_cons.mp h with h1 | h1
      · rw [h1]
        exact List.mem_cons_self _ _
      · exact List.mem_cons_of_mem _ (List.mem_cons_of_mem _ h1)

/-- Members of the scored list were scored by marketScore. -/
theorem mem_scoredMarkets (markets : List BitcoinMarket) (now : ℚ)
    (p : ℤ × BitcoinMarket) (h : p ∈ scoredMarkets markets now) :
    p.2 ∈ markets ∧ marketScore p.2 now = some p.1 := by
  rw [scoredMarkets, List.mem_filterMap] at h
  obtain ⟨m, hm, hp⟩ := h
  rcases Option.map_eq_some'.mp hp with ⟨sc, hsc, hpair⟩
  cases hpair
  exact ⟨hm, hsc⟩

/-- C4: the selector never returns a market whose spread is at or above 0.10
or whose parseable resolution time is not strictly in the future; and it
returns none when the input is empty or every candidate is ineligible. -/
theorem C4_selector_safety :
    (∀ (markets : List BitcoinMarket) (now : ℚ) (m : BitcoinMarket),
        select_best_market markets now = some m →
        m.spread < 1/10 ∧ ∀ ed, m.end_date = some ed → now < ed)
      ∧ (∀ (markets : List BitcoinMarket) (now : ℚ),
        (markets = [] ∨ ∀ m ∈ markets, isIneligible m now) →
        select_best_market markets now = none) := by
  constructor
  · intro markets now m hsel
    rw [select_best_market] at hsel
    revert hsel
    split
    · intro h
      exact absurd h (by simp)
    · rename_i x xs heq
      intro h
      have hm : (pickBest x xs).2 = m := by
        simpa using h
      have hmem : pickBest x xs ∈ scoredMarkets markets now := by
        rw [heq]
        exact pickBest_mem x xs
      have hsc := (mem_scoredMarkets markets now _ hmem).2
      rw [hm] at hsc
      exact ⟨marketScore_some_spread m now _ hsc,
        marketScore_some_future m now _ hsc⟩
  · intro markets now h
    have hnil : scoredMarkets markets now = [] := by
      cases h with
      | inl he =>
        rw [he, scoredMarkets]
        rfl
      | inr hall =>
        rw [scoredMarkets, List.filterMap_eq_nil_iff]
        intro m hm
        rw [isIneligible_score_none m now (hall m hm)]
        rfl
    rw [select_best_market, hnil]

/-- C4 witness: the empty market list yields none. -/
theorem C4_witness : select_best_market [] 0 = none :=
  C4_selector_safety.2 [] 0 (Or.inl rfl)

/-! ## C5: the selector's scoring formula and tie-breaking -/

/-- The claim's spread component for an eligible market: +3/+2/+1 for spread
below 0.02/0.05/0.10. -/
def specSpreadComponent (m : BitcoinMarket) : ℤ :=
  if m.spread < 2/100 then 3 else if m.spread < 5/100 then 2 else 1

/-- Modelled from the spec (claim C5's wording): time component +3 for
time-to-resolution in (15min,1h], +2 in (1h,4h], +1 in (4h,24h], with an
unparseable resolution time contributing 0 — the 15-minute end is
exclusive. -/
def specTimeComponent (m : BitcoinMarket) (now : ℚ) : ℤ :=
  match m.end_date with
  | none => 0
  | some ed =>
    if 1/4 < ed - now ∧ ed - now ≤ 1 then 3
    else if 1 < ed - now ∧ ed - now ≤ 4 then 2
    else if 4 < ed - now ∧ ed - now ≤ 24 then 1
    else 0

/-- The claim's volume bonus. -/
def specVolumeBonus (m : BitcoinMarket) : ℤ :=
  if m.volume > 10000 then 1 else 0

/-- Modelled from the spec: the total score claim C5 asserts for an eligible
market. -/
def specScoreC5 (m : BitcoinMarket) (now : ℚ) : ℤ :=
  specSpreadComponent m + specTimeComponent m now + specVolumeBonus m

/-- The amended time component: the 15-minute end of the first interval is
inclusive, matching the source's 0.25 <= hours <= 1 test. -/
def amendedTimeComponent (m : BitcoinMarket) (now : ℚ) : ℤ :=
  match m.end_date with
  | none => 0
  | some ed =>
    if 1/4 ≤ ed - now ∧ ed - now ≤ 1 then 3
    else if 1 < ed - now ∧ ed - now ≤ 4 then 2
    else if 4 < ed - now ∧ ed - now ≤ 24 then 1
    else 0

/-- The amended total score for an eligible market. -/
def amendedScoreC5 (m : BitcoinMarket) (now : ℚ) : ℤ :=
  specSpreadComponent m + amendedTimeComponent m now + specVolumeBonus m

/-- A tight, liquid market resolving exactly 15 minutes from now = 0. -/
def c5m : BitcoinMarket :=
  { condition_id := "c", question := "q", yes_token_id := "y",
    no_token_id := "n", end_date := some (1/4), current_yes_price := 1/2,
    current_no_price := 1/2, volume := 0, liquidity := 0 }

/-- C5 counterexample: at exactly 15 minutes to resolution the code scores
3 (spread) + 3 (time, inclusive boundary) = 6, while the claim's formula
(exclusive at 15min) gives 3 + 0 = 3. -/
theorem C5_counterexample :
    marketScore c5m 0 = some 6 ∧ specScoreC5 c5m 0 = 3 ∧ (6 : ℤ) ≠ 3 := by
  refine ⟨?_, ?_, by norm_num⟩
  · have hsp : c5m.spread = 0 := by
      norm_num [BitcoinMarket.spread, c5m]
    have h1 : spreadScore c5m = some 3 := by
      rw [spreadScore, if_pos (by rw [hsp]; norm_num)]
    have h2 : marketTimeScore c5m 0 = some 3 := by
      unfold marketTimeScore c5m
      show timeScoreAt (1/4 - 0) = some 3
      rw [timeScoreAt, if_pos (by norm_num)]
    unfold marketScore
    rw [h1, h2]
    norm_num [c5m]
  · have hsp : c5m.spread = 0 := by
      norm_num [BitcoinMarket.spread, c5m]
    unfold specScoreC5 specSpreadComponent specTimeComponent specVolumeBonus
      c5m
    norm_num [BitcoinMarket.spread]

/-- The spread part of a code score matches the claim's spread component. -/
theorem spreadScore_eq_spec (m : BitcoinMarket) (s1 : ℤ)
    (h : spreadScore m = some s1) : s1 = specSpreadComponent m := by
  unfold spreadScore at h
  unfold specSpreadComponent
  split_ifs at h ⊢ <;> simp_all

/-- The time part of a code score matches the amended time component. -/
theorem timeScore_eq_amended (m : BitcoinMarket) (now : ℚ) (ts : ℤ)
    (h : marketTimeScore m now = some ts) :
    ts = amendedTimeComponent m now := by
  unfold marketTimeScore at h
  unfold amendedTimeComponent
  cases hed : m.end_date with
  | none =>
    rw [hed] at h
    have h2 : some (0 : ℤ) = some ts := h
    exact (Option.some.inj h2).symm
  | some ed =>
    rw [hed] at h
    have h2 : timeScoreAt (ed - now) = some ts := h
    show ts = if 1/4 ≤ ed - now ∧ ed - now ≤ 1 then 3
      else if 1 < ed - now ∧ ed - now ≤ 4 then 2
      else if 4 < ed - now ∧ ed - now ≤ 24 then 1 else 0
    unfold timeScoreAt at h2
    split_ifs at h2 with c1 c2 c3 c4
    · rw [if_pos c1]
      exact (Option.some.inj h2).symm
    · rw [if_neg c1, if_pos c2]
      exact (Option.some.inj h2).symm
    · rw [if_neg c1, if_neg c2, if_pos c3]
      exact (Option.some.inj h2).symm
    · rw [if_neg c1, if_neg c2, if_neg c3]
      exact (Option.some.inj h2).symm

/-- pickBest returns an element of the list such that everything before it
scores strictly less and everything after it scores no more: the first
maximal element. -/
theorem pickBest_decomp (x : ℤ × BitcoinMarket)
    (xs : List (ℤ × BitcoinMarket)) :
    ∃ l1 l2, x :: xs = l1 ++ pickBest x xs :: l2
      ∧ (∀ p ∈ l1, p.1 < (pickBest x xs).1)
      ∧ (∀ p ∈ l2, p.1 ≤ (pickBest x xs).1) := by
  induction xs generalizing x with
  | nil => exact ⟨[], [], by simp [pickBest], by simp, by simp⟩
  | cons y ys ih =>
    have hstep : pickBest x (y :: ys)
        = pickBest (if y.1 > x.1 then y else x) ys := rfl
    obtain ⟨l1, l2, heq, hlt, hle⟩ := ih (if y.1 > x.1 then y else x)
    by_cases hy : y.1 > x.1
    · rw [if_pos hy] at heq hlt hle
      rw [hstep, if_pos hy]
      have hyr : y.1 ≤ (pickBest y ys).1 := by
        cases l1 with
        | nil =>
          have hhead : y = pickBest y ys := by
            have hh := congrArg List.head? heq
            simpa using hh
          rw [← hhead]
        | cons a l1' =>
          have hya : y.1 = a.1 := by
            have hh : y = a := by
              have hh2 := congrArg List.head? heq
              simpa using hh2
            rw [hh]
          rw [hya]
          exact le_of_lt (hlt a (List.mem_cons_self a l1'))
      refine ⟨x :: l1, l2, ?_, ?_, hle⟩
      · rw [List.cons_append, ← heq]
      · intro p hp
        rcases List.mem_cons.mp hp with hp1 | hp1
        · rw [hp1]
          exact lt_of_lt_of_le hy hyr
        · exact hlt p hp1
    · rw [if_neg hy] at heq hlt hle
      rw [hstep, if_neg hy]
      push_neg at hy
      cases l1 with
      | nil =>
        obtain ⟨hxr, hl2⟩ := List.cons_eq_cons.mp heq
        refine ⟨[], y :: l2, ?_, by simp, ?_⟩
        · rw [List.nil_append, ← hxr, ← hl2]
        · intro p hp
          rcases List.mem_cons.mp hp with hp1 | hp1
          · rw [hp1, ← hxr]
            exact hy
          · exact hle p hp1
      | cons a l1' =>
        obtain ⟨hax, hys⟩ := List.cons_eq_cons.mp heq
        simp only [List.append_eq] at hys
        have hxlt : x.1 < (pickBest x ys).1 := by
          have h5 := hlt a (List.mem_cons_self a l1')
          have h6 : x.1 = a.1 := by rw [hax]
          rw [h6]
          exact h5
        refine ⟨x :: y :: l1', l2, ?_, ?_, hle⟩
        · conv_lhs => rw [hys]
          simp
        · intro p hp
          rcases List.mem_cons.mp hp with hp1 | hp1
          · rw [hp1]
            exact hxlt
          · rcases List.mem_cons.mp hp1 with hp2 | hp2
            · rw [hp2]
              exact lt_of_le_of_lt hy hxlt
            · have := hlt p (List.mem_cons_of_mem a hp2)
              exact this

/-- C5 (amended): every scored (eligible) market's score is the spread
component plus the amended time component (inclusive at 15 minutes) plus the
volume bonus; and the returned market is the first maximum-scoring entry of
the scored list (everything scored before it is strictly smaller, everything
after no larger). -/
theorem C5_amended :
    (∀ (m : BitcoinMarket) (now : ℚ) (s : ℤ),
        marketScore m now = some s → s = amendedScoreC5 m now)
      ∧ (∀ (markets : List BitcoinMarket) (now : ℚ) (m : BitcoinMarket),
        select_best_market markets now = some m →
        ∃ (s : ℤ) (l1 l2 : List (ℤ × BitcoinMarket)),
          scoredMarkets markets now = l1 ++ (s, m) :: l2
            ∧ (∀ p ∈ l1, p.1 < s) ∧ (∀ p ∈ l2, p.1 ≤ s)) := by
  constructor
  · intro m now s h
    unfold marketScore at h
    cases hsp : spreadScore m with
    | none =>
      rw [hsp] at h
      exact absurd h (by simp)
    | some s1 =>
      rw [hsp] at h
      have h2 : (match marketTimeScore m now with
        | none => (none : Option ℤ)
        | some ts => some (s1 + ts
            + (if m.volume > 10000 then 1 else 0))) = some s := h
      cases ht : marketTimeScore m now with
      | none =>
        rw [ht] at h2
        exact absurd h2 (by simp)
      | some ts =>
        rw [ht] at h2
        have h3 : s = s1 + ts + (if m.volume > 10000 then 1 else 0) :=
          (Option.some.inj h2).symm
        rw [h3, amendedScoreC5, ← spreadScore_eq_spec m s1 hsp,
          ← timeScore_eq_amended m now ts ht, specVolumeBonus]
  · intro markets now m hsel
    rw [select_best_market] at hsel
    revert hsel
    split
    · intro h
      exact absurd h (by simp)
    · rename_i x xs heq
      intro h
      have hm : (pickBest x xs).2 = m := by
        simpa using h
      obtain ⟨l1, l2, hdec, hlt, hle⟩ := pickBest_decomp x xs
      refine ⟨(pickBest x xs).1, l1, l2, ?_, hlt, hle⟩
      rw [heq, hdec, ← hm]

/-- C5 witness: on a singleton list the selector returns that market, which
the amended theorem decomposes with empty strict-smaller prefix. -/
theorem C5_witness :
    ∃ (s : ℤ) (l1 l2 : List (ℤ × BitcoinMarket)),
      scoredMarkets [c5m] 0 = l1 ++ (s, c5m) :: l2
        ∧ (∀ p ∈ l1, p.1 < s) ∧ (∀ p ∈ l2, p.1 ≤ s) :=
  C5_amended.2 [c5m] 0 c5m (by
    have h1 : spreadScore c5m = some 3 := by
      rw [spreadScore,
        if_pos (by norm_num [BitcoinMarket.spread, c5m])]
    have h2 : marketTimeScore c5m 0 = some 3 := by
      unfold marketTimeScore c5m
      show timeScoreAt (1/4 - 0) = some 3
      rw [timeScoreAt, if_pos (by norm_num)]
    have h3 : marketScore c5m 0 = some 6 := by
      unfold marketScore
      rw [h1, h2]
      norm_num [c5m]
    rw [select_best_market, scoredMarkets]
    simp [h3, pickBest])

/-! ## C9: bounds on raw_score and confidence -/

/-- A nonnegative weight map summing to 1.009: within the 1% tolerance, so
used without renormalization. -/
def c9w : Weights := ⟨259/1000, 1/4, 1/4, 1/4⟩

/-- A bundle on which all four indicators emit +2. -/
def c9ind : IndicatorValues :=
  { rsi := 20, macd_line := 2, macd_signal := 1, macd_histogram := 1,
    ema_short := 100, ema_long := 90, bb_upper := 130, bb_middle := 125,
    bb_lower := 120, current_price := 110 }

/-- C9 counterexample: the scorer accepts c9w unchanged (sum 1.009 is within
its 1% tolerance) and on c9ind produces raw_score 1.009, which lies outside
[-1, 1]. -/
theorem C9_counterexample :
    normalizeWeights c9w = c9w
      ∧ (scorerSignal ⟨30, 70⟩ c9w c9ind).raw_score = 1009/1000
      ∧ ¬ (abs (scorerSignal ⟨30, 70⟩ c9w c9ind).raw_score ≤ 1) := by
  have hnorm : normalizeWeights c9w = c9w := by
    rw [normalizeWeights]
    rw [if_neg (by norm_num [weightSum, c9w, abs_of_nonneg])]
  have hraw : (scorerSignal ⟨30, 70⟩ c9w c9ind).raw_score = 1009/1000 := by
    rw [scorerSignal, hnorm]
    norm_num [calculate_signal, score_rsi, score_macd, score_ema_crossover,
      score_bollinger, c9w, c9ind]
  refine ⟨hnorm, hraw, ?_⟩
  rw [hraw]
  norm_num [abs_of_nonneg]

theorem score_rsi_bounds (cfg : IndicatorConfig) (x : ℚ) :
    -2 ≤ score_rsi cfg x ∧ score_rsi cfg x ≤ 2 := by
  unfold score_rsi
  split_ifs <;> norm_num

theorem score_macd_bounds (a b c : ℚ) :
    -2 ≤ score_macd a b c ∧ score_macd a b c ≤ 2 := by
  unfold score_macd
  exact ⟨le_max_left _ _, max_le (by norm_num) (min_le_left _ _)⟩

theorem score_ema_bounds (a b c : ℚ) :
    -2 ≤ score_ema_crossover a b c ∧ score_ema_crossover a b c ≤ 2 := by
  unfold score_ema_crossover
  exact ⟨le_max_left _ _, max_le (by norm_num) (min_le_left _ _)⟩

theorem score_bollinger_bounds (p u mid lo : ℚ) :
    -2 ≤ score_bollinger p u mid lo ∧ score_bollinger p u mid lo ≤ 2 := by
  unfold score_bollinger
  by_cases h0 : u - lo = 0
  · simp only [if_pos h0]
    norm_num
  · simp only [if_neg h0]
    split_ifs <;> norm_num

theorem int_abs_cast_le (n : ℤ) (h1 : -2 ≤ n) (h2 : n ≤ 2) :
    abs (n : ℚ) ≤ 2 := by
  rw [abs_le]
  exact ⟨by exact_mod_cast h1, by exact_mod_cast h2⟩

/-- Effective weights keep nonnegativity. -/
theorem normalizeWeights_nonneg (w : Weights) (hr : 0 ≤ w.rsi)
    (hm : 0 ≤ w.macd) (he : 0 ≤ w.ema_crossover) (hb : 0 ≤ w.bollinger) :
    0 ≤ (normalizeWeights w).rsi ∧ 0 ≤ (normalizeWeights w).macd
      ∧ 0 ≤ (normalizeWeights w).ema_crossover
      ∧ 0 ≤ (normalizeWeights w).bollinger := by
  have hs : 0 ≤ weightSum w := by
    rw [weightSum]
    linarith
  rw [normalizeWeights]
  split_ifs
  · exact ⟨div_nonneg hr hs, div_nonneg hm hs, div_nonneg he hs,
      div_nonneg hb hs⟩
  · exact ⟨hr, hm, he, hb⟩

/-- The effective weights sum to at most 1.01: exactly 1 after
renormalization, and within the 1% tolerance otherwise. -/
theorem normalizeWeights_sum_le (w : Weights) :
    weightSum (normalizeWeights w) ≤ 101/100 := by
  rw [normalizeWeights]
  split_ifs with hdev
  · by_cases hs : weightSum w = 0
    · show w.rsi / weightSum w + w.macd / weightSum w
        + w.ema_crossover / weightSum w + w.bollinger / weightSum w ≤ 101/100
      rw [hs]
      norm_num
    · show w.rsi / weightSum w + w.macd / weightSum w
        + w.ema_crossover / weightSum w + w.bollinger / weightSum w ≤ 101/100
      rw [div_add_div_same, div_add_div_same, div_add_div_same]
      rw [show w.rsi + w.macd + w.ema_crossover + w.bollinger = weightSum w
        from rfl]
      rw [div_self hs]
      norm_num
  · have hd := abs_le.mp (not_lt.mp hdev)
    linarith [hd.2]

/-- The raw score is bounded by the sum of the weights it was computed
with. -/
theorem calculate_raw_abs_le (cfg : IndicatorConfig) (w : Weights)
    (ind : IndicatorValues) (hr : 0 ≤ w.rsi) (hm : 0 ≤ w.macd)
    (he : 0 ≤ w.ema_crossover) (hb : 0 ≤ w.bollinger) :
    abs (calculate_signal cfg w ind).raw_score ≤ weightSum w := by
  have hraw : (calculate_signal cfg w ind).raw_score
      = ((score_rsi cfg ind.rsi : ℚ) * w.rsi
        + (score_macd ind.macd_line ind.macd_signal ind.macd_histogram : ℚ)
          * w.macd
        + (score_ema_crossover ind.ema_short ind.ema_long
            ind.current_price : ℚ) * w.ema_crossover
        + (score_bollinger ind.current_price ind.bb_upper ind.bb_middle
            ind.bb_lower : ℚ) * w.bollinger) / 2 := by
    simp only [calculate_signal]
    split_ifs <;> rfl
  have b1 : abs ((score_rsi cfg ind.rsi : ℚ) * w.rsi) ≤ 2 * w.rsi := by
    rw [abs_mul, abs_of_nonneg hr]
    exact mul_le_mul_of_nonneg_right
      (int_abs_cast_le _ (score_rsi_bounds cfg ind.rsi).1
        (score_rsi_bounds cfg ind.rsi).2) hr
  have b2 : abs ((score_macd ind.macd_line ind.macd_signal
      ind.macd_histogram : ℚ) * w.macd) ≤ 2 * w.macd := by
    rw [abs_mul, abs_of_nonneg hm]
    exact mul_le_mul_of_nonneg_right
      (int_abs_cast_le _ (score_macd_bounds _ _ _).1
        (score_macd_bounds _ _ _).2) hm
  have b3 : abs ((score_ema_crossover ind.ema_short ind.ema_long
      ind.current_price : ℚ) * w.ema_crossover) ≤ 2 * w.ema_crossover := by
    rw [abs_mul, abs_of_nonneg he]
    exact mul_le_mul_of_nonneg_right
      (int_abs_cast_le _ (score_ema_bounds _ _ _).1
        (score_ema_bounds _ _ _).2) he
  have b4 : abs ((score_bollinger ind.current_price ind.bb_upper
      ind.bb_middle ind.bb_lower : ℚ) * w.bollinger) ≤ 2 * w.bollinger := by
    rw [abs_mul, abs_of_nonneg hb]
    exact mul_le_mul_of_nonneg_right
      (int_abs_cast_le _ (score_bollinger_bounds _ _ _ _).1
        (score_bollinger_bounds _ _ _ _).2) hb
  rw [hraw, abs_div]
  rw [show abs (2 : ℚ) = 2 by norm_num]
  rw [div_le_iff (by norm_num : (0 : ℚ) < 2)]
  calc abs ((score_rsi cfg ind.rsi : ℚ) * w.rsi + _ * w.macd
        + _ * w.ema_crossover + _ * w.bollinger)
      ≤ abs ((score_rsi cfg ind.rsi : ℚ) * w.rsi + _ * w.macd
        + _ * w.ema_crossover) + abs (_ * w.bollinger) := abs_add _ _
    _ ≤ (abs ((score_rsi cfg ind.rsi : ℚ) * w.rsi + _ * w.macd)
        + abs (_ * w.ema_crossover)) + abs (_ * w.bollinger) := by
          exact add_le_add_right (abs_add _ _) _
    _ ≤ ((abs ((score_rsi cfg ind.rsi : ℚ) * w.rsi) + abs (_ * w.macd))
        + abs (_ * w.ema_crossover)) + abs (_ * w.bollinger) := by
          exact add_le_add_right (add_le_add_right (abs_add _ _) _) _
    _ ≤ ((2 * w.rsi + 2 * w.macd) + 2 * w.ema_crossover)
        + 2 * w.bollinger := by
          exact add_le_add (add_le_add (add_le_add b1 b2) b3) b4
    _ = weightSum w * 2 := by
          rw [weightSum]
          ring

/-- Confidence is always clamped into [0, 1]. -/
theorem calculate_conf_bounds (cfg : IndicatorConfig) (w : Weights)
    (ind : IndicatorValues) :
    0 ≤ (calculate_signal cfg w ind).confidence
      ∧ (calculate_signal cfg w ind).confidence ≤ 1 := by
  simp only [calculate_signal]
  split_ifs
  · exact ⟨le_min (abs_nonneg _) zero_le_one, min_le_right _ _⟩
  · exact ⟨le_min (abs_nonneg _) zero_le_one, min_le_right _ _⟩
  · exact ⟨le_refl 0, zero_le_one⟩

/-- C9 (amended): for nonnegative weight maps the Composite Signal always has
confidence in [0,1]; raw_score is bounded by the effective weight sum, hence
lies in [-1.01, 1.01], and lies in [-1, 1] whenever the effective weights sum
to at most 1 (in particular after an actual renormalization) — but weight
maps inside the 1% tolerance are used as-is and can push raw_score slightly
past 1. -/
theorem C9_amended (cfg : IndicatorConfig) (w : Weights)
    (ind : IndicatorValues) (hr : 0 ≤ w.rsi) (hm : 0 ≤ w.macd)
    (he : 0 ≤ w.ema_crossover) (hb : 0 ≤ w.bollinger) :
    0 ≤ (scorerSignal cfg w ind).confidence
      ∧ (scorerSignal cfg w ind).confidence ≤ 1
      ∧ abs (scorerSignal cfg w ind).raw_score ≤ 101/100
      ∧ (weightSum (normalizeWeights w) ≤ 1 →
          abs (scorerSignal cfg w ind).raw_score ≤ 1) := by
  have hn := normalizeWeights_nonneg w hr hm he hb
  have hraw := calculate_raw_abs_le cfg (normalizeWeights w) ind
    hn.1 hn.2.1 hn.2.2.1 hn.2.2.2
  have hsum := normalizeWeights_sum_le w
  have hconf := calculate_conf_bounds cfg (normalizeWeights w) ind
  exact ⟨hconf.1, hconf.2, le_trans hraw hsum,
    fun h1 => le_trans hraw h1⟩

/-- C9 witness: the bounds at the default weights on the all-bullish
bundle. -/
theorem C9_witness :
    0 ≤ (scorerSignal ⟨30, 70⟩ ⟨1/4, 3/10, 1/4, 1/5⟩ c9ind).confidence
      ∧ (scorerSignal ⟨30, 70⟩ ⟨1/4, 3/10, 1/4, 1/5⟩ c9ind).confidence ≤ 1
      ∧ abs (scorerSignal ⟨30, 70⟩ ⟨1/4, 3/10, 1/4, 1/5⟩ c9ind).raw_score
        ≤ 101/100
      ∧ (weightSum (normalizeWeights ⟨1/4, 3/10, 1/4, 1/5⟩) ≤ 1 →
          abs (scorerSignal ⟨30, 70⟩ ⟨1/4, 3/10, 1/4, 1/5⟩ c9ind).raw_score
            ≤ 1) :=
  C9_amended ⟨30, 70⟩ ⟨1/4, 3/10, 1/4, 1/5⟩ c9ind (by norm_num)
    (by norm_num) (by norm_num) (by norm_num)

end BtcBot
